import Mathlib

/-!
Verification of the repair-and-diagnose engine of the json-repair repository.

The engine's source lives in `src/utils/jsonUtils.ts` (`repairJson`,
`detectOriginalJsonErrors`, `locateJsonError`, `getErrorSuggestion`, plus the
legacy locator helpers `findFirstProblematicChar` / `findMissingCommas` of the
older copy of that file) and `src/hooks/useJsonProcessor.ts` (`safeParse`).
This file is a shallow embedding of those functions over `List Char` / `String`,
together with a model of the one external collaborator the engine consumes: a
strict JSON parser (`JSON.parse`).  Each regular-expression rewrite of the
source is embedded as an explicit character-scanning function whose doc comment
quotes the regex it implements.
-/

namespace JsonRepair

/-! ## Character classes -/

/-- JavaScript regex `\s` / `String.prototype.trim` whitespace, restricted to
the code points the engine can meet (ASCII whitespace, NBSP, BOM). -/
def isWsC (c : Char) : Bool :=
  c = ' ' || c = '\t' || c = '\n' || c = '\r' ||
  c = Char.ofNat 12 || c = Char.ofNat 11 ||
  c = Char.ofNat 0xa0 || c = Char.ofNat 0xfeff

/-- Decimal digit `[0-9]`. -/
def isDigitC (c : Char) : Bool := '0' ≤ c && c ≤ '9'

/-- `[1-9]`. -/
def isPosDigitC (c : Char) : Bool := '1' ≤ c && c ≤ '9'

/-- `[a-zA-Z_]`, the start of an identifier. -/
def isIdentStartC (c : Char) : Bool :=
  ('a' ≤ c && c ≤ 'z') || ('A' ≤ c && c ≤ 'Z') || c = '_'

/-- Regex word character `\w` = `[a-zA-Z0-9_]`. -/
def isWordC (c : Char) : Bool := isIdentStartC c || isDigitC c

/-- `[\w-]`, the identifier-continuation class used by the quoting rules. -/
def isIdentContC (c : Char) : Bool := isWordC c || c = '-'

/-- `[0-9a-fA-F]`. -/
def isHexC (c : Char) : Bool :=
  isDigitC c || ('a' ≤ c && c ≤ 'f') || ('A' ≤ c && c ≤ 'F')

/-- Strict JSON whitespace (space, tab, newline, carriage return). -/
def isJsonWsC (c : Char) : Bool :=
  c = ' ' || c = '\t' || c = '\n' || c = '\r'

/-! ## List-of-characters utilities -/

/-- Index of the first occurrence of `pat` in `s` at or after offset `i`
(the recursion keeps `i` as the running offset). -/
def subIdxGo (pat : List Char) : List Char → Nat → Option Nat
  | [], i => if pat.isPrefixOf ([] : List Char) then some i else none
  | c :: r, i => if pat.isPrefixOf (c :: r) then some i else subIdxGo pat r (i + 1)

/-- `String.prototype.indexOf` for a pattern, over character lists. -/
def subIdx (s pat : List Char) : Option Nat := subIdxGo pat s 0

/-- `String.prototype.includes`. -/
def hasSubL (s pat : List Char) : Bool := (subIdx s pat).isSome

/-- `String.prototype.includes` at the `String` level. -/
def hasSub (s pat : String) : Bool := hasSubL s.data pat.data

/-- `String.prototype.trim` (JS whitespace on both ends). -/
def trimL (s : List Char) : List Char :=
  ((s.dropWhile isWsC).reverse.dropWhile isWsC).reverse

/-- Drop trailing JS whitespace only. -/
def rtrimL (s : List Char) : List Char :=
  (s.reverse.dropWhile isWsC).reverse

/-- `String.prototype.trim` at the `String` level. -/
def trimS (s : String) : String := String.mk (trimL s.data)

/-- `String.prototype.toLowerCase`, restricted to ASCII letters (the only
letters occurring in the engine's diagnostic strings). -/
def lowerStr (s : String) : String := String.mk (s.data.map Char.toLower)

/-- `text.split('\n')` over character lists: always returns at least one
(possibly empty) segment, exactly like the JavaScript `String.prototype.split`. -/
def splitNlL : List Char → List (List Char)
  | [] => [[]]
  | c :: rest =>
    match splitNlL rest with
    | [] => [[c]]
    | h :: t => if c = '\n' then [] :: h :: t else (c :: h) :: t

/-- `text.split('\n')` at the `String` level. -/
def splitNl (s : String) : List String := (splitNlL s.data).map String.mk

/-- JS `a || b` on strings (empty string is falsy). -/
def strOr (a b : String) : String := if a = "" then b else a

/-- The 1-based `l`-th line of `text` under `text.split('\n')` (empty when out
of range); used to state the column-bound invariant. -/
def lineOf (text : String) (l : Nat) : String := (splitNl text).getD (l - 1) ""

/-- Count occurrences of a character in a line (JS `(line.match(/x/g) || []).length`). -/
def countC (c : Char) (s : List Char) : Nat := s.countP (· = c)

/-- Digits of a leading decimal run, paired with the rest. -/
def digitRun : List Char → (List Char × List Char)
  | [] => ([], [])
  | c :: r =>
    if isDigitC c then
      let (d, rest) := digitRun r
      (c :: d, rest)
    else ([], c :: r)

/-- Numeric value of a digit list (`parseInt(·, 10)` on a digit-only match). -/
def digitsToNat (ds : List Char) : Nat :=
  ds.foldl (fun n c => n * 10 + (c.toNat - '0'.toNat)) 0

/-! ## The strict JSON parser

Modelled from the spec: the engine consumes an external strict-JSON parser
collaborator (`JSON.parse`, spec §6): "a function `parse(text) -> value` that
throws/returns an error object carrying a `message: string` on syntactically
invalid input, with no further contract on message shape guaranteed".  The
acceptance behaviour (strict JSON, ECMA-404) is modelled here; the failure
message is supplied as an explicit parameter `emsg` wherever a function of the
engine inspects it, since the spec guarantees nothing about its shape.
JavaScript objects are modelled as key/value association lists in parse order
and numbers exactly, as a canonical decimal `mant * 10 ^ exp` with `mant` not
divisible by ten (all numerals exercised by the claims are small integers,
where `JSON.parse` is also exact; double rounding is out of scope). -/

mutual
inductive JsonValue where
  | null : JsonValue
  | bool (b : Bool) : JsonValue
  | num (mant : Int) (exp : Int) : JsonValue
  | str (s : String) : JsonValue
  | arr (a : JsonArr) : JsonValue
  | obj (o : JsonObj) : JsonValue
deriving DecidableEq

inductive JsonArr where
  | nil : JsonArr
  | cons (v : JsonValue) (rest : JsonArr) : JsonArr
deriving DecidableEq

inductive JsonObj where
  | nil : JsonObj
  | cons (k : String) (v : JsonValue) (rest : JsonObj) : JsonObj
deriving DecidableEq
end

/-- Lookup of a key in a parsed object (first binding wins; the engine never
produces duplicate keys in the claims' scenarios). -/
def JsonObj.lookup : JsonObj → String → Option JsonValue
  | .nil, _ => none
  | .cons k v rest, key => if k = key then some v else rest.lookup key

/-- Skip strict-JSON whitespace. -/
def skipJWs : List Char → List Char
  | [] => []
  | c :: r => if isJsonWsC c then skipJWs r else c :: r

/-- Parse the four-hex-digit payload of a `\u` escape. -/
def parseHex4 : List Char → Option (Nat × List Char)
  | a :: b :: c :: d :: rest =>
    if isHexC a && isHexC b && isHexC c && isHexC d then
      let v (x : Char) : Nat :=
        if isDigitC x then x.toNat - '0'.toNat
        else if 'a' ≤ x && x ≤ 'f' then x.toNat - 'a'.toNat + 10
        else x.toNat - 'A'.toNat + 10
      some (((v a * 16 + v b) * 16 + v c) * 16 + v d, rest)
    else none
  | _ => none

/-- Parse the body of a JSON string literal after the opening quote. -/
def parseStrBody : Nat → List Char → Option (List Char × List Char)
  | 0, _ => none
  | _ + 1, [] => none
  | fuel + 1, c :: r =>
    if c = '"' then some ([], r)
    else if c = '\\' then
      match r with
      | [] => none
      | e :: r2 =>
        let push (ch : Char) (rest : List Char) : Option (List Char × List Char) :=
          match parseStrBody fuel rest with
          | some (body, after) => some (ch :: body, after)
          | none => none
        if e = '"' then push '"' r2
        else if e = '\\' then push '\\' r2
        else if e = '/' then push '/' r2
        else if e = 'b' then push (Char.ofNat 8) r2
        else if e = 'f' then push (Char.ofNat 12) r2
        else if e = 'n' then push '\n' r2
        else if e = 'r' then push '\r' r2
        else if e = 't' then push '\t' r2
        else if e = 'u' then
          match parseHex4 r2 with
          | some (code, r3) => push (Char.ofNat code) r3
          | none => none
        else none
    else if c.toNat < 0x20 then none
    else
      match parseStrBody fuel r with
      | some (body, after) => some (c :: body, after)
      | none => none

/-- Strip factors of ten from the mantissa into the exponent, so that equal
decimal values get syntactically equal representations. -/
def normNumGo : Nat → Int → Int → Int × Int
  | 0, m, e => (m, e)
  | fuel + 1, m, e =>
    if m ≠ 0 && m % 10 = 0 then normNumGo fuel (m / 10) (e + 1) else (m, e)

/-- Canonical decimal representation of `m * 10 ^ e`. -/
def normNum (m e : Int) : Int × Int :=
  if m = 0 then (0, 0) else normNumGo m.natAbs m e

/-- Parse a JSON number (`-? (0 | [1-9][0-9]*) (\. [0-9]+)? ([eE][+-]?[0-9]+)?`)
into its exact canonical decimal value. -/
def parseNum (s : List Char) : Option ((Int × Int) × List Char) :=
  let (sign, s1) : Int × List Char :=
    match s with
    | '-' :: r => (-1, r)
    | _ => (1, s)
  match s1 with
  | [] => none
  | c :: _ =>
    if ¬ isDigitC c then none
    else
      let (intDs, s2) := digitRun s1
      -- leading zeros are rejected: the integer part is "0" or starts in [1-9]
      if intDs.length > 1 && intDs.headD '0' = '0' then none
      else
        let (fracDs, s3) : List Char × List Char :=
          match s2 with
          | '.' :: r => digitRun r
          | _ => ([], s2)
        if (match s2 with | '.' :: _ => fracDs.isEmpty | _ => false) then none
        else
          let s3' := if fracDs.isEmpty then s2 else s3
          let expPart : Option (Int × List Char) :=
            match s3' with
            | e :: r =>
              if e = 'e' || e = 'E' then
                let (esign, r2) : Int × List Char :=
                  match r with
                  | '+' :: rr => (1, rr)
                  | '-' :: rr => (-1, rr)
                  | _ => (1, r)
                let (eds, r3) := digitRun r2
                if eds.isEmpty then none else some (esign * digitsToNat eds, r3)
              else some (0, e :: r)
            | [] => some (0, [])
          match expPart with
          | none => none
          | some (e, rest) =>
            let mant : Int := sign * (digitsToNat intDs * 10 ^ fracDs.length + digitsToNat fracDs)
            some (normNum mant (e - fracDs.length), rest)

mutual
/-- Parse one JSON value from the front of the input. -/
def parseVal : Nat → List Char → Option (JsonValue × List Char)
  | 0, _ => none
  | fuel + 1, s =>
    match skipJWs s with
    | [] => none
    | c :: r =>
      if c = '{' then
        match skipJWs r with
        | '}' :: r2 => some (.obj .nil, r2)
        | r2 => match parseObjItems fuel r2 with
                | some (o, r3) => some (.obj o, r3)
                | none => none
      else if c = '[' then
        match skipJWs r with
        | ']' :: r2 => some (.arr .nil, r2)
        | r2 => match parseArrItems fuel r2 with
                | some (a, r3) => some (.arr a, r3)
                | none => none
      else if c = '"' then
        match parseStrBody (r.length + 1) r with
        | some (body, r2) => some (.str (String.mk body), r2)
        | none => none
      else if c = 't' then
        if ['r', 'u', 'e'].isPrefixOf r then some (.bool true, r.drop 3) else none
      else if c = 'f' then
        if ['a', 'l', 's', 'e'].isPrefixOf r then some (.bool false, r.drop 4) else none
      else if c = 'n' then
        if ['u', 'l', 'l'].isPrefixOf r then some (.null, r.drop 3) else none
      else
        match parseNum (c :: r) with
        | some ((m, e), r2) => some (.num m e, r2)
        | none => none

/-- Parse the members of an object after `{` (first member's leading
whitespace already consumed). -/
def parseObjItems : Nat → List Char → Option (JsonObj × List Char)
  | 0, _ => none
  | fuel + 1, s =>
    match s with
    | '"' :: r =>
      match parseStrBody (r.length + 1) r with
      | some (key, r2) =>
        match skipJWs r2 with
        | ':' :: r3 =>
          match parseVal fuel r3 with
          | some (v, r4) =>
            match skipJWs r4 with
            | ',' :: r5 =>
              match parseObjItems fuel (skipJWs r5) with
              | some (o, r6) => some (.cons (String.mk key) v o, r6)
              | none => none
            | '}' :: r5 => some (.cons (String.mk key) v .nil, r5)
            | _ => none
          | none => none
        | _ => none
      | none => none
    | _ => none

/-- Parse the items of an array after `[` (leading whitespace consumed,
array known nonempty). -/
def parseArrItems : Nat → List Char → Option (JsonArr × List Char)
  | 0, _ => none
  | fuel + 1, s =>
    match parseVal fuel s with
    | some (v, r) =>
      match skipJWs r with
      | ',' :: r2 =>
        match parseArrItems fuel r2 with
        | some (a, r3) => some (.cons v a, r3)
        | none => none
      | ']' :: r2 => some (.cons v .nil, r2)
      | _ => none
    | none => none
end

/-- `JSON.parse`, acceptance behaviour: `some value` on strictly valid JSON,
`none` otherwise. -/
def jsonParse (text : String) : Option JsonValue :=
  match parseVal (text.data.length + 1) text.data with
  | some (v, rest) => if (skipJWs rest).isEmpty then some v else none
  | none => none

/-- Whether `JSON.parse` accepts the text. -/
def isValidJson (text : String) : Bool := (jsonParse text).isSome

/-- `JSON.parse` as the engine sees it: a failure carries the collaborator's
message, whose shape is uncontracted (spec §6) and therefore supplied as the
parameter `emsg`. -/
def jsonParseWith (emsg : String → String) (text : String) :
    Except String JsonValue :=
  match jsonParse text with
  | some v => .ok v
  | none => .error (emsg text)

/-! ## The repair pipeline (`repairJson`, jsonUtils.ts)

Each of the following functions embeds one `String.prototype.replace` call of
`repairJson`.  A JavaScript global replace scans the subject left to right,
tries the pattern at each position, and on a match emits the replacement and
resumes immediately after the matched text; the embeddings reproduce exactly
that discipline (one character of progress on a failed attempt, the full match
on a successful one).  Functions that can skip more than one character per
step recurse on fuel, initialised to more than the subject's length. -/

/-- Leading run of JS whitespace, with the remainder. -/
def wsRun (s : List Char) : List Char × List Char := s.span isWsC

/-- Leading `[A-Za-z_][\w-]*` identifier, with the remainder (caller has
checked the first character). -/
def identRunCont (s : List Char) : List Char × List Char := s.span isIdentContC

/-- Leading `[a-zA-Z_][a-zA-Z0-9_]*` identifier, with the remainder. -/
def identRunWord (s : List Char) : List Char × List Char := s.span isWordC

/-- JS multiline `$`: true when the scan position sits at end of input or
before a line terminator. -/
def atEolM : List Char → Bool
  | [] => true
  | c :: _ => c = '\n' || c = '\r'

/-- For a `\s*$` tail in a multiline pattern: the number of whitespace
characters the greedy `\s*` consumes so that `$` holds, if any choice works.
`w` is the maximal whitespace run at the position and `rest` what follows it. -/
def eolWsTake (w rest : List Char) : Option Nat :=
  if rest.isEmpty then some w.length
  else
    match (w.reverse.findIdx? fun c => c = '\n' || c = '\r') with
    | some k => some (w.length - 1 - k)
    | none => none

/-- `s.replace(/\/\*[\s\S]*?\*\//g, '')`: strip block comments (lazy body). -/
def stripBlockComments : Nat → List Char → List Char
  | 0, s => s
  | _ + 1, [] => []
  | fuel + 1, c :: r =>
    if c = '/' then
      match r with
      | '*' :: r2 =>
        match subIdx r2 ['*', '/'] with
        | some i => stripBlockComments fuel (r2.drop (i + 2))
        | none => c :: stripBlockComments fuel r
      | _ => c :: stripBlockComments fuel r
    else c :: stripBlockComments fuel r

/-- Drop the `.*` body of a line comment: everything up to (excluding) the
next line terminator. -/
def dropToEol (s : List Char) : List Char := s.dropWhile (fun c => c ≠ '\n' && c ≠ '\r')

/-- `s.replace(/(^|[^:])\/\/.*$/gm, '')`: strip `//` line comments (the
negative guard keeps `://` URLs); the replacement is empty, so the captured
character before the comment marker is deleted too.  `prev` is the character
before the scan position (`none` at the start of input); the `^` alternative
holds after a line terminator. -/
def stripLineComments : Nat → Option Char → List Char → List Char
  | 0, _, s => s
  | _ + 1, _, [] => []
  | fuel + 1, prev, c :: r =>
    let lineStart := prev = none || prev = some '\n' || prev = some '\r'
    if lineStart && c = '/' && (['/'].isPrefixOf r) then
      -- `^//...` : the whole comment is deleted
      let body := ('/' :: r).takeWhile (fun x => x ≠ '\n' && x ≠ '\r')
      stripLineComments fuel (some (body.getLastD c)) (dropToEol r)
    else if c ≠ ':' && (['/', '/'].isPrefixOf r) then
      -- `[^:]//...` : the preceding character is part of the match and deleted
      let body := r.takeWhile (fun x => x ≠ '\n' && x ≠ '\r')
      stripLineComments fuel (some (body.getLastD c)) (dropToEol r)
    else c :: stripLineComments fuel (some c) r

/-- `s.replace(/#.*$/gm, '')`: strip `#` comments to end of line. -/
def stripHashComments : Nat → List Char → List Char
  | 0, s => s
  | _ + 1, [] => []
  | fuel + 1, c :: r =>
    if c = '#' then stripHashComments fuel (dropToEol r)
    else c :: stripHashComments fuel r

/-- `s.replace(/;.*$/gm, '')`: strip `;` comments to end of line. -/
def stripSemiComments : Nat → List Char → List Char
  | 0, s => s
  | _ + 1, [] => []
  | fuel + 1, c :: r =>
    if c = ';' then stripSemiComments fuel (dropToEol r)
    else c :: stripSemiComments fuel r

/-- `s.replace(/^\s*[\r\n]/gm, '')`: at a line start, greedily take whitespace
ending in a line terminator and delete it (removes now-empty lines). -/
def stripEmptyLines : Nat → Option Char → List Char → List Char
  | 0, _, s => s
  | _ + 1, _, [] => []
  | fuel + 1, prev, c :: r =>
    let lineStart := prev = none || prev = some '\n' || prev = some '\r'
    if lineStart then
      let (w, _) := wsRun (c :: r)
      match (w.reverse.findIdx? fun x => x = '\n' || x = '\r') with
      | some k =>
        let consumed := w.length - k   -- `\s*` takes `w.length - 1 - k`, `[\r\n]` one more
        stripEmptyLines fuel (some (w.getD (consumed - 1) c)) ((c :: r).drop consumed)
      | none => c :: stripEmptyLines fuel (some c) r
    else c :: stripEmptyLines fuel (some c) r

/-- `s.replace(/([,{]\s*)([A-Za-z_][\w-]*)(\s*:)/g, '$1"$2"$3')`: quote
unquoted object keys. -/
def quoteKeys : Nat → List Char → List Char
  | 0, s => s
  | _ + 1, [] => []
  | fuel + 1, c :: r =>
    if c = ',' || c = '{' then
      let (w, r1) := wsRun r
      match r1 with
      | d :: _ =>
        if isIdentStartC d then
          let (id, r2) := identRunCont r1
          let (w2, r3) := wsRun r2
          match r3 with
          | ':' :: r4 => c :: w ++ '"' :: id ++ '"' :: w2 ++ ':' :: quoteKeys fuel r4
          | _ => c :: quoteKeys fuel r
        else c :: quoteKeys fuel r
      | [] => c :: quoteKeys fuel r
    else c :: quoteKeys fuel r

/-- `s.replace(/(:\s*)(?!")([A-Za-z_][\w-]*)(\s*[,}])/g, '$1"$2"$3')`: quote a
bare value after a colon, up to a comma or closing brace. -/
def quoteColonVals : Nat → List Char → List Char
  | 0, s => s
  | _ + 1, [] => []
  | fuel + 1, c :: r =>
    if c = ':' then
      let (w, r1) := wsRun r
      match r1 with
      | d :: _ =>
        if isIdentStartC d then
          let (id, r2) := identRunCont r1
          let (w2, r3) := wsRun r2
          match r3 with
          | e :: r4 =>
            if e = ',' || e = '}' then
              ':' :: w ++ '"' :: id ++ '"' :: w2 ++ e :: quoteColonVals fuel r4
            else ':' :: quoteColonVals fuel r
          | [] => ':' :: quoteColonVals fuel r
        else ':' :: quoteColonVals fuel r
      | [] => ':' :: quoteColonVals fuel r
    else c :: quoteColonVals fuel r

/-- `s.replace(/(:\s*)(?!")([A-Za-z_][\w-]*)(\s*$)/gm, '$1"$2"')`: quote a bare
value after a colon at end of line; the trailing whitespace group is dropped
by the replacement. -/
def quoteColonValsEol : Nat → List Char → List Char
  | 0, s => s
  | _ + 1, [] => []
  | fuel + 1, c :: r =>
    if c = ':' then
      let (w, r1) := wsRun r
      match r1 with
      | d :: _ =>
        if isIdentStartC d then
          let (id, r2) := identRunCont r1
          let (w2, r3) := wsRun r2
          match eolWsTake w2 r3 with
          | some j => ':' :: w ++ '"' :: id ++ '"' :: quoteColonValsEol fuel (w2.drop j ++ r3)
          | none => ':' :: quoteColonValsEol fuel r
        else ':' :: quoteColonValsEol fuel r
      | [] => ':' :: quoteColonValsEol fuel r
    else c :: quoteColonValsEol fuel r

/-- `s.replace(/([\[,]\s*)(?!")([A-Za-z_][\w-]*)(\s*[,}\]])/g, '$1"$2"$3')`:
quote a bare array item. -/
def quoteArrVals : Nat → List Char → List Char
  | 0, s => s
  | _ + 1, [] => []
  | fuel + 1, c :: r =>
    if c = '[' || c = ',' then
      let (w, r1) := wsRun r
      match r1 with
      | d :: _ =>
        if isIdentStartC d then
          let (id, r2) := identRunCont r1
          let (w2, r3) := wsRun r2
          match r3 with
          | e :: r4 =>
            if e = ',' || e = '}' || e = ']' then
              c :: w ++ '"' :: id ++ '"' :: w2 ++ e :: quoteArrVals fuel r4
            else c :: quoteArrVals fuel r
          | [] => c :: quoteArrVals fuel r
        else c :: quoteArrVals fuel r
      | [] => c :: quoteArrVals fuel r
    else c :: quoteArrVals fuel r

/-- `s.replace(/([\[,]\s*)(?!")([A-Za-z_][\w-]*)(\s*$)/gm, '$1"$2"')`: quote a
bare array item at end of line. -/
def quoteArrValsEol : Nat → List Char → List Char
  | 0, s => s
  | _ + 1, [] => []
  | fuel + 1, c :: r =>
    if c = '[' || c = ',' then
      let (w, r1) := wsRun r
      match r1 with
      | d :: _ =>
        if isIdentStartC d then
          let (id, r2) := identRunCont r1
          let (w2, r3) := wsRun r2
          match eolWsTake w2 r3 with
          | some j => c :: w ++ '"' :: id ++ '"' :: quoteArrValsEol fuel (w2.drop j ++ r3)
          | none => c :: quoteArrValsEol fuel r
        else c :: quoteArrValsEol fuel r
      | [] => c :: quoteArrValsEol fuel r
    else c :: quoteArrValsEol fuel r

/-- Scan for the closing single quote: a `'` whose predecessor is not `\`
(the source walks `endPos` forward with exactly this test). -/
def sqCloseGo (prev : Char) : List Char → Option (List Char × List Char)
  | [] => none
  | c :: r =>
    if c = '\'' && prev ≠ '\\' then some ([], r)
    else
      match sqCloseGo c r with
      | some (inner, rest) => some (c :: inner, rest)
      | none => none

/-- `inner.replace(/\\'/g, "'")`: unescape embedded single quotes. -/
def escSQ : List Char → List Char
  | '\\' :: '\'' :: r => '\'' :: escSQ r
  | c :: r => c :: escSQ r
  | [] => []

/-- `inner.replace(/"/g, '\\"')`: escape embedded double quotes.  (The
source's preceding `replace(/\\\\/g, '\\\\')` is the identity and is elided.) -/
def escDQ : List Char → List Char
  | '"' :: r => '\\' :: '"' :: escDQ r
  | c :: r => c :: escDQ r
  | [] => []

/-- The single-to-double-quote conversion loop of `repairJson`: find the next
`'`, find its closing `'` (skipping escaped ones), re-escape the body, and
continue after the rewritten literal; an unterminated quote is skipped. -/
def sqConv : Nat → List Char → List Char → List Char
  | 0, done, todo => done ++ todo
  | fuel + 1, done, todo =>
    match subIdx todo ['\''] with
    | none => done ++ todo
    | some i =>
      let before := todo.take i
      let after := todo.drop (i + 1)
      match sqCloseGo '\'' after with
      | some (inner, rest) =>
        sqConv fuel (done ++ before ++ '"' :: escDQ (escSQ inner) ++ ['"']) rest
      | none => sqConv fuel (done ++ before ++ ['\'']) after

/-- A generic `\bword\b → rep` global replace (`True`, `False`, `None`,
`NaN`, `Infinity`, `undefined`). -/
def replaceWordGo (word rep : List Char) : Nat → Option Char → List Char → List Char
  | 0, _, s => s
  | _ + 1, _, [] => []
  | fuel + 1, prev, c :: r =>
    let boundary := match prev with | none => true | some p => ¬ isWordC p
    let after := (c :: r).drop word.length
    if boundary && word.isPrefixOf (c :: r) &&
        (match after with | [] => true | a :: _ => ¬ isWordC a) then
      rep ++ replaceWordGo word rep fuel (some (word.getLastD c)) after
    else c :: replaceWordGo word rep fuel (some c) r

/-- `\bword\b → rep` at the top level. -/
def replaceWord (word rep : List Char) (s : List Char) : List Char :=
  replaceWordGo word rep (s.length + 1) none s

/-- A plain (boundary-free) global literal replace (`-Infinity`, `"null"`). -/
def replaceAllL (pat rep : List Char) : Nat → List Char → List Char
  | 0, s => s
  | _ + 1, [] => []
  | fuel + 1, c :: r =>
    if pat.isPrefixOf (c :: r) && pat ≠ [] then
      rep ++ replaceAllL pat rep fuel ((c :: r).drop pat.length)
    else c :: replaceAllL pat rep fuel r

/-- `\b0m[digits]+\b → null` for the radix literals `0x`, `0b`, `0o`. -/
def replaceRadixGo (marker : Char) (dig : Char → Bool) :
    Nat → Option Char → List Char → List Char
  | 0, _, s => s
  | _ + 1, _, [] => []
  | fuel + 1, prev, c :: r =>
    let boundary := match prev with | none => true | some p => ¬ isWordC p
    if boundary && c = '0' then
      match r with
      | m :: r2 =>
        if m = marker then
          let (run, rest) := r2.span dig
          if run ≠ [] && (match rest with | [] => true | a :: _ => ¬ isWordC a) then
            'n' :: 'u' :: 'l' :: 'l' :: replaceRadixGo marker dig fuel (some (run.getLastD m)) rest
          else c :: replaceRadixGo marker dig fuel (some c) r
        else c :: replaceRadixGo marker dig fuel (some c) r
      | [] => c :: replaceRadixGo marker dig fuel (some c) r
    else c :: replaceRadixGo marker dig fuel (some c) r

/-- `\b0m[digits]+\b → null` at the top level. -/
def replaceRadix (marker : Char) (dig : Char → Bool) (s : List Char) : List Char :=
  replaceRadixGo marker dig (s.length + 1) none s

/-- `s.replace(/(:\s*)0([1-9]\d*)/g, '$1$2')`: strip an illegal leading zero
after a colon. -/
def fixColonZero : Nat → List Char → List Char
  | 0, s => s
  | _ + 1, [] => []
  | fuel + 1, c :: r =>
    if c = ':' then
      let (w, r1) := wsRun r
      match r1 with
      | '0' :: d :: r2 =>
        if isPosDigitC d then
          let (ds, r3) := digitRun r2
          ':' :: w ++ d :: ds ++ fixColonZero fuel r3
        else ':' :: fixColonZero fuel r
      | _ => ':' :: fixColonZero fuel r
    else c :: fixColonZero fuel r

/-- `s.replace(/(:\s*)\.(\d+)/g, '$10.$2')`: add a leading zero to a bare
leading-dot decimal after a colon (`$10` is group 1 followed by a literal 0). -/
def fixColonDot : Nat → List Char → List Char
  | 0, s => s
  | _ + 1, [] => []
  | fuel + 1, c :: r =>
    if c = ':' then
      let (w, r1) := wsRun r
      match r1 with
      | '.' :: d :: r2 =>
        if isDigitC d then
          let (ds, r3) := digitRun r2
          ':' :: w ++ '0' :: '.' :: d :: ds ++ fixColonDot fuel r3
        else ':' :: fixColonDot fuel r
      | _ => ':' :: fixColonDot fuel r
    else c :: fixColonDot fuel r

/-- The `(?=\s*[,}\]])` lookahead shared by the dangling-dot and bare-exponent
fixes. -/
def lookCloseAfterWs (s : List Char) : Bool :=
  match s.dropWhile isWsC with
  | c :: _ => c = ',' || c = '}' || c = ']'
  | [] => false

/-- `s.replace(/(\d+)\.(?=\s*[,}\]])/g, '$1.0')`: complete a dangling-dot
decimal before a delimiter. -/
def fixDotClose : Nat → List Char → List Char
  | 0, s => s
  | _ + 1, [] => []
  | fuel + 1, c :: r =>
    if isDigitC c then
      let (ds, r1) := digitRun (c :: r)
      match r1 with
      | '.' :: r2 =>
        if lookCloseAfterWs r2 then ds ++ '.' :: '0' :: fixDotClose fuel r2
        else c :: fixDotClose fuel r
      | _ => c :: fixDotClose fuel r
    else c :: fixDotClose fuel r

/-- `s.replace(/(\d+)e(?=\s*[,}\]])/g, '$1')` (and the same for `E`): drop an
incomplete exponent suffix before a delimiter. -/
def fixExpClose : Char → Nat → List Char → List Char
  | _, 0, s => s
  | _, _ + 1, [] => []
  | expChar, fuel + 1, c :: r =>
    if isDigitC c then
      let (ds, r1) := digitRun (c :: r)
      match r1 with
      | e :: r2 =>
        if e = expChar && lookCloseAfterWs r2 then ds ++ fixExpClose expChar fuel r2
        else c :: fixExpClose expChar fuel r
      | [] => c :: fixExpClose expChar fuel r
    else c :: fixExpClose expChar fuel r

/-- `s.replace(/,\s*([}\]])/g, '$1')`: drop a comma (and the whitespace after
it) that sits directly before a closing brace/bracket. -/
def dropCommaBeforeClose : Nat → List Char → List Char
  | 0, s => s
  | _ + 1, [] => []
  | fuel + 1, c :: r =>
    if c = ',' then
      let (_, r1) := wsRun r
      match r1 with
      | e :: r2 =>
        if e = '}' || e = ']' then e :: dropCommaBeforeClose fuel r2
        else c :: dropCommaBeforeClose fuel r
      | [] => c :: dropCommaBeforeClose fuel r
    else c :: dropCommaBeforeClose fuel r

/-- `s.replace(/,\s*[=;]/g, '')`: delete a comma followed by an invalid
separator, separator included. -/
def dropCommaBeforeEqSemi : Nat → List Char → List Char
  | 0, s => s
  | _ + 1, [] => []
  | fuel + 1, c :: r =>
    if c = ',' then
      let (_, r1) := wsRun r
      match r1 with
      | e :: r2 =>
        if e = '=' || e = ';' then dropCommaBeforeEqSemi fuel r2
        else c :: dropCommaBeforeEqSemi fuel r
      | [] => c :: dropCommaBeforeEqSemi fuel r
    else c :: dropCommaBeforeEqSemi fuel r

/-- `s.replace(/,\s*$/, '')` (no `g`, no `m`): delete the first comma that is
followed only by whitespace up to the end of input. -/
def dropDanglingComma : List Char → List Char
  | [] => []
  | c :: r =>
    if c = ',' && r.all isWsC then []
    else c :: dropDanglingComma r

/-- `s.replace(/(\s*)X\s*(\s*[a-zA-Z_][a-zA-Z0-9_]*\s*:)/g, '$1X,$2')` for a
closing `]` or `}` followed by a property name: insert the missing comma.  The
leading `(\s*)` group is copied verbatim by the replacement, so it is treated
as ordinary context; the whitespace between the closer and the identifier is
consumed by the ungrouped `\s*` and deleted. -/
def insCommaCloseIdent : Char → Nat → List Char → List Char
  | _, 0, s => s
  | _, _ + 1, [] => []
  | close, fuel + 1, c :: r =>
    if c = close then
      let (_, r1) := wsRun r
      match r1 with
      | d :: _ =>
        if isIdentStartC d then
          let (id, r2) := identRunWord r1
          let (w2, r3) := wsRun r2
          match r3 with
          | ':' :: r4 => close :: ',' :: id ++ w2 ++ ':' :: insCommaCloseIdent close fuel r4
          | _ => c :: insCommaCloseIdent close fuel r
        else c :: insCommaCloseIdent close fuel r
      | [] => c :: insCommaCloseIdent close fuel r
    else c :: insCommaCloseIdent close fuel r

/-- `s.replace(/(\s*)X\s*(\s*Y)/g, '$1X,$2')` for `] {` and `} [`: insert the
missing comma between a closer and the next opener. -/
def insCommaCloseOpen : Char → Char → Nat → List Char → List Char
  | _, _, 0, s => s
  | _, _, _ + 1, [] => []
  | close, opn, fuel + 1, c :: r =>
    if c = close then
      let (_, r1) := wsRun r
      match r1 with
      | d :: r2 =>
        if d = opn then close :: ',' :: opn :: insCommaCloseOpen close opn fuel r2
        else c :: insCommaCloseOpen close opn fuel r
      | [] => c :: insCommaCloseOpen close opn fuel r
    else c :: insCommaCloseOpen close opn fuel r

/-- `s.replace(/[‘’]/g, "'").replace(/[“”]/g, '"')`:
normalise Unicode curly quotes. -/
def mapCurly (s : List Char) : List Char :=
  s.map fun c =>
    if c = Char.ofNat 0x2018 || c = Char.ofNat 0x2019 then '\''
    else if c = Char.ofNat 0x201c || c = Char.ofNat 0x201d then '"'
    else c

/-- `s.replace(/^﻿/, '')`: strip a leading byte-order mark. -/
def stripBom : List Char → List Char
  | c :: r => if c = Char.ofNat 0xfeff then r else c :: r
  | [] => []

/-- `repairJson` (jsonUtils.ts): the ordered repair pipeline.  Comment
stripping runs first; if the raw input is already strict JSON it is returned
unchanged (short-circuit); otherwise the quoting, quote-conversion, literal,
numeric, comma and cosmetic rewrites run in source order.  (The source
interleaves building its pattern tables with these steps; only the applied
replacements are semantic.) -/
def repairJson (text : String) : String :=
  if text = "" then ""
  else
    let n := text.data.length + 1
    let s1 := stripBlockComments n text.data
    let s2 := stripLineComments (s1.length + 1) none s1
    let s3 := stripHashComments (s2.length + 1) s2
    let s4 := stripSemiComments (s3.length + 1) s3
    let s5 := stripEmptyLines (s4.length + 1) none s4
    if isValidJson text then text
    else
      let t1 := quoteKeys (s5.length + 1) s5
      let t2 := quoteColonVals (t1.length + 1) t1
      let t3 := quoteColonValsEol (t2.length + 1) t2
      let t4 := quoteArrVals (t3.length + 1) t3
      let t5 := quoteArrValsEol (t4.length + 1) t4
      let q := sqConv (t5.length + 1) [] t5
      let l1 := replaceWord ['T','r','u','e'] ['t','r','u','e'] q
      let l2 := replaceWord ['F','a','l','s','e'] ['f','a','l','s','e'] l1
      let l3 := replaceWord ['N','o','n','e'] ['n','u','l','l'] l2
      let v1 := replaceAllL ['-','I','n','f','i','n','i','t','y'] ['n','u','l','l'] (l3.length + 1) l3
      let v2 := replaceWord ['N','a','N'] ['n','u','l','l'] v1
      let v3 := replaceWord ['I','n','f','i','n','i','t','y'] ['n','u','l','l'] v2
      let v4 := replaceWord ['u','n','d','e','f','i','n','e','d'] ['n','u','l','l'] v3
      let v5 := replaceRadix 'x' isHexC v4
      let v6 := replaceRadix 'b' (fun c => c = '0' || c = '1') v5
      let v7 := replaceRadix 'o' (fun c => '0' ≤ c && c ≤ '7') v6
      let n1 := fixColonZero (v7.length + 1) v7
      let n2 := fixColonDot (n1.length + 1) n1
      let n3 := fixDotClose (n2.length + 1) n2
      let n4 := fixExpClose 'e' (n3.length + 1) n3
      let n5 := fixExpClose 'E' (n4.length + 1) n4
      let p1 := replaceAllL ['"','n','u','l','l','"'] ['n','u','l','l'] (n5.length + 1) n5
      let c1 := dropCommaBeforeClose (p1.length + 1) p1
      let c2 := dropCommaBeforeEqSemi (c1.length + 1) c1
      let c3 := dropDanglingComma c2
      let m1 := insCommaCloseIdent ']' (c3.length + 1) c3
      let m2 := insCommaCloseIdent '}' (m1.length + 1) m1
      let m3 := insCommaCloseOpen ']' '{' (m2.length + 1) m2
      let m4 := insCommaCloseOpen '}' '[' (m3.length + 1) m3
      String.mk (trimL (stripBom (mapCurly m4)))

/-! ## The error locator (`locateJsonError`, jsonUtils.ts) -/

/-- The shape returned by `locateJsonError` and the legacy locator helpers. -/
structure LocateRes where
  pos : Option Nat
  line : Option Nat
  col : Option Nat
  token : Option String
deriving DecidableEq, Repr

/-- First occurrence of `marker` followed by at least one digit; returns the
numeric value of the maximal digit run (`parseInt(match, 10)`). -/
def findNumAfterGo (marker : List Char) : List Char → Option Nat
  | [] => none
  | c :: r =>
    if marker.isPrefixOf (c :: r) then
      let (ds, _) := digitRun ((c :: r).drop marker.length)
      if ds.isEmpty then findNumAfterGo marker r else some (digitsToNat ds)
    else findNumAfterGo marker r

/-- The line walk of `locateJsonError`: starting from line index `idx` with
running offset `cur`, find the line containing `pos` (each line contributes
`length + 1` for its newline) and validate the resulting 1-based column
against `[1, lineLength + 1]`; a column outside the bounds yields no
position at all. -/
def locateWalk : List String → Nat → Nat → Nat → Option (Nat × Nat)
  | [], _, _, _ => none
  | l :: rest, idx, cur, pos =>
    if cur + l.length ≥ pos then
      let col : Int := (pos : Int) - (cur : Int) + 1
      if 0 < col && col ≤ (l.length : Int) + 1 then some (idx + 1, col.toNat)
      else none
    else locateWalk rest (idx + 1) (cur + l.length + 1) pos

/-- The pattern table of `locateJsonError`: extract an absolute offset from
the raw parser message.  The source tries a fixed list of patterns in order;
every pattern from the third onwards contains `at position (\d+)` or
`position (\d+)` and is subsumed by the first two, so the token capture of the
later patterns can never bind and the locator's token is always `null`. -/
def msgPos (msg : String) : Option Nat :=
  match findNumAfterGo ("at position ".data) msg.data with
  | some p => some p
  | none => findNumAfterGo ("position ".data) msg.data

/-- `locateJsonError` (jsonUtils.ts): extract an absolute offset from the raw
parser message, clamp it into `[0, text.length - 1]` (JS number arithmetic:
the upper clamp can be `-1` on empty text, the lower clamp then lifts it back
to 0), and convert it to a 1-based line/column by accumulating
`lineLength + 1` per line. -/
def locateJsonError (msg : String) (text : String) : LocateRes :=
  match msgPos msg with
  | none => ⟨none, none, none, none⟩
  | some p =>
    let pc : Nat := (max 0 (min ((text.length : Int) - 1) (p : Int))).toNat
    match locateWalk (splitNl text) 0 0 pc with
    | some (l, c) => ⟨some pc, some l, some c, none⟩
    | none => ⟨none, none, none, none⟩

/-! ## The heuristic structural scan (`detectOriginalJsonErrors`, jsonUtils.ts) -/

/-- The shape returned by `detectOriginalJsonErrors` (a non-null result always
carries an error string). -/
structure DetectRes where
  pos : Option Nat
  line : Option Nat
  col : Option Nat
  token : Option String
  error : String
deriving DecidableEq, Repr

/-- The scan's skip test: empty after trimming, or a `//` or `#` comment line. -/
def skipLineB (line : List Char) : Bool :=
  let t := trimL line
  t.isEmpty || ['/', '/'].isPrefixOf t || ['#'].isPrefixOf t

/-- `line.match(/([^,]),,/)`: a doubled comma preceded by a non-comma. -/
def hasNonCommaDblComma : List Char → Bool
  | a :: b :: c :: r =>
    (a ≠ ',' && b = ',' && c = ',') || hasNonCommaDblComma (b :: c :: r)
  | _ => false

/-- `line.match(/,\s*([}\]])/)`: a comma followed (modulo whitespace) by a
closing brace/bracket on the same line. -/
def hasTrailingCommaClose : List Char → Bool
  | [] => false
  | c :: r =>
    if c = ',' then
      (match r.dropWhile isWsC with
       | e :: _ => e = '}' || e = ']'
       | [] => false) || hasTrailingCommaClose r
    else hasTrailingCommaClose r

/-- `line.match(/(\s*)X\s*$/)`: the line ends in the character `X` followed
only by whitespace. -/
def endsCloseWs (x : Char) (line : List Char) : Bool :=
  match (rtrimL line).getLast? with
  | some c => c = x
  | none => false

/-- `line.match(/(\s*)([a-zA-Z0-9_]+|"[^"]*"|'[^']*'|true|false|null|None|True|False)\s*$/)`:
the line ends in a bare value.  The keyword alternatives are subsumed by
`[a-zA-Z0-9_]+`; a quoted alternative needs a closing quote as the last
non-whitespace character and a matching opening quote before it (the segment
between the last two quotes is automatically quote-free). -/
def endsWithValue (line : List Char) : Bool :=
  let t := rtrimL line
  match t.getLast? with
  | none => false
  | some c =>
    isWordC c ||
    (c = '"' && t.dropLast.contains '"') ||
    (c = '\'' && t.dropLast.contains '\'')

/-- `nextLine.trim().match(/^[a-zA-Z_][a-zA-Z0-9_]*\s*:/)`: the trimmed next
line starts with a property-name-and-colon pattern. -/
def identColonAfterTrim (next : List Char) : Bool :=
  let t := trimL next
  match t with
  | d :: _ =>
    if isIdentStartC d then
      let (_, r) := identRunWord t
      match r.dropWhile isWsC with
      | ':' :: _ => true
      | _ => false
    else false
  | [] => false

/-- The guard `nextLine && nextLine.trim().match(/^ident\s*:/)` applied to the
remaining lines of the scan. -/
def nextLineIdentColon (rest : List String) : Bool :=
  match rest with
  | [] => false
  | nl :: _ => nl ≠ "" && identColonAfterTrim nl.data

/-- The bracket-balance loop: starting from count 1 after the opening line,
add opens and subtract closes per following line, stopping at zero. -/
def balanceGo (opn cls : Char) : List String → Int → Int
  | [], cnt => cnt
  | l :: rest, cnt =>
    let cnt' := cnt + (countC opn l.data : Int) - (countC cls l.data : Int)
    if cnt' = 0 then 0 else balanceGo opn cls rest cnt'

/-- The line loop of `detectOriginalJsonErrors`: `lineNum` is the 0-based
index of the current line and `joinLen` the length of
`lines.slice(0, lineNum).join('\n')` (used verbatim for the reported
offsets).  Empty and comment lines are skipped before any check; the seven
checks run in source order and the first hit wins. -/
def detectScan : List String → Nat → Nat → Option DetectRes
  | [], _, _ => none
  | line :: rest, lineNum, joinLen =>
    let L := line.data
    let nextJoin := if lineNum = 0 then L.length else joinLen + 1 + L.length
    if skipLineB L then detectScan rest (lineNum + 1) nextJoin
    else if hasNonCommaDblComma L then
      let i := (subIdx L [',', ',']).getD 0
      some ⟨some (joinLen + i + 1), some (lineNum + 1), some (i + 2), some ",",
        "Unexpected comma - remove duplicate comma"⟩
    else if hasTrailingCommaClose L then
      let i := (subIdx L [',']).getD 0
      some ⟨some (joinLen + i), some (lineNum + 1), some (i + 1), some ",",
        "Unexpected comma - remove trailing comma"⟩
    else if endsCloseWs '}' L && nextLineIdentColon rest then
      some ⟨some (joinLen + L.length), some (lineNum + 1), some (L.length + 1), some ",",
        "Missing comma - add comma after closing brace"⟩
    else if endsCloseWs ']' L && nextLineIdentColon rest then
      some ⟨some (joinLen + L.length), some (lineNum + 1), some (L.length + 1), some ",",
        "Missing comma - add comma after closing bracket"⟩
    else if endsWithValue L && nextLineIdentColon rest then
      some ⟨some (joinLen + L.length), some (lineNum + 1), some (L.length + 1), some ",",
        "Missing comma - add comma after value"⟩
    else if endsCloseWs '{' L && balanceGo '{' '}' rest 1 > 0 then
      some ⟨some (joinLen + L.length), some (lineNum + 1), some L.length, some "\x7b",
        "Missing closing brace - check bracket balance"⟩
    else if endsCloseWs '[' L && balanceGo '[' ']' rest 1 > 0 then
      some ⟨some (joinLen + L.length), some (lineNum + 1), some L.length, some "[",
        "Missing closing bracket - check bracket balance"⟩
    else detectScan rest (lineNum + 1) nextJoin

/-- `detectOriginalJsonErrors` (jsonUtils.ts): on a parse failure of the raw
text, run the structural line scan; if it finds nothing and the raw message is
one of the token-class shapes, fall back to `locateJsonError` over the
original text, reporting its position only when fully populated. -/
def detectOriginalJsonErrors (emsg : String → String) (text : String) :
    Option DetectRes :=
  if text = "" then none
  else
    match jsonParse text with
    | some _ => none
    | none =>
      let errorMsg := strOr (emsg text) "Unknown error"
      match detectScan (splitNl text) 0 0 with
      | some r => some r
      | none =>
        if hasSub errorMsg "Unexpected token" || hasSub errorMsg "Unexpected end" ||
            hasSub errorMsg "Unexpected number" || hasSub errorMsg "Unexpected string" then
          let fb := locateJsonError errorMsg text
          match fb.pos, fb.line, fb.col with
          | some p, some l, some c => some ⟨some p, some l, some c, fb.token, errorMsg⟩
          | _, _, _ => some ⟨none, none, none, none, errorMsg⟩
        else none

/-! ## The legacy locator helpers (older copy of jsonUtils.ts) -/

/-- The line loop of the legacy `findMissingCommas`: note that it skips only
falsy (empty) lines and lines with no successor — comment lines are NOT
skipped here. -/
def findMissingGo : List String → Nat → Nat → Option LocateRes
  | [], _, _ => none
  | line :: rest, i, joinLen =>
    let L := line.data
    let nextJoin := if i = 0 then L.length else joinLen + 1 + L.length
    match rest with
    | [] => none
    | nl :: _ =>
      if L.isEmpty || nl = "" then findMissingGo rest (i + 1) nextJoin
      else
        let nlIdent :=
          -- `nextLine.match(/^\s*[a-zA-Z_][a-zA-Z0-9_]*\s*:/)`
          identColonAfterTrim nl.data
        if endsCloseWs '}' L && nlIdent then
          some ⟨some (joinLen + L.length), some (i + 1), some (L.length + 1), some ","⟩
        else if endsCloseWs ']' L && nlIdent then
          some ⟨some (joinLen + L.length), some (i + 1), some (L.length + 1), some ","⟩
        else if endsWithValue L && nlIdent then
          some ⟨some (joinLen + L.length), some (i + 1), some (L.length + 1), some ","⟩
        else findMissingGo rest (i + 1) nextJoin

/-- Legacy `findMissingCommas` at the `String` level. -/
def findMissingCommas (text : String) : Option LocateRes :=
  findMissingGo (splitNl text) 0 0

/-- The per-line character loop of the legacy `findFirstProblematicChar`:
`seen` records whether a non-whitespace character precedes the current column
(the source's backwards `keyStart` scan succeeds exactly in that case, its
`/[a-zA-Z0-9_]*/` test being vacuously true). -/
def probCharLineGo : List Char → Nat → Bool → Option (Nat × Option String)
  | [], _, _ => none
  | c :: r, col, seen =>
    if c = '=' || c = ';' then some (col, some (String.mk [c]))
    else if c = '<' || c = '>' || c = '|' || c = '&' || c = '%' || c = '$' ||
        c = '@' || c = '!' then some (col, some (String.mk [c]))
    else if c = ':' && seen then some (col, none)
    else probCharLineGo r (col + 1) (seen || ¬ isWsC c)

/-- The line loop of the legacy `findFirstProblematicChar`: skips empty and
comment lines, then scans for an invalid character; `preLen` accumulates
`lineLength + 1` for each earlier line. -/
def probCharScan : List String → Nat → Nat → Option LocateRes
  | [], _, _ => none
  | line :: rest, lineNum, preLen =>
    let L := line.data
    let nextPre := preLen + L.length + 1
    if skipLineB L then probCharScan rest (lineNum + 1) nextPre
    else
      match probCharLineGo L 0 false with
      | some (col, tok) => some ⟨some (preLen + col), some (lineNum + 1), some (col + 1), tok⟩
      | none => probCharScan rest (lineNum + 1) nextPre

/-- Legacy `findFirstProblematicChar` (older jsonUtils.ts): the missing-comma
pre-scan runs first (with no comment-line skipping), then the per-line
invalid-character scan. -/
def findFirstProblematicChar (text : String) : LocateRes :=
  if text = "" then ⟨none, none, none, none⟩
  else
    match findMissingCommas text with
    | some r => r
    | none =>
      match probCharScan (splitNl text) 0 0 with
      | some r => r
      | none => ⟨none, none, none, none⟩

/-! ## The suggestion mapper (`getErrorSuggestion`, jsonUtils.ts) -/

/-- `getErrorSuggestion` (jsonUtils.ts): keyword-match the (lowercased) error
message against specific structural causes, then token-class causes, then
single-character causes, with a generic fallback.  The unused line/column
parameters of the source are omitted. -/
def getErrorSuggestion (error : String) : String :=
  if error = "" then ""
  else
    let e := lowerStr error
    if hasSub e "duplicate comma" || hasSub e "unexpected comma" then
      "Remove the duplicate or trailing comma"
    else if hasSub e "missing comma" then
      if hasSub e "after closing brace" then
        "Add a comma after the closing brace \x7d before the next property"
      else if hasSub e "after closing bracket" then
        "Add a comma after the closing bracket ] before the next property"
      else if hasSub e "after value" then
        "Add a comma after the value before the next property"
      else "Add a comma to separate properties or array items"
    else if hasSub e "missing closing brace" then
      "Check that all opening braces \x7b have matching closing braces \x7d"
    else if hasSub e "missing closing bracket" then
      "Check that all opening brackets [ have matching closing brackets ]"
    else if hasSub e "bracket balance" then
      "Check that opening and closing brackets/braces are properly balanced"
    else if hasSub e "unexpected token" then
      if hasSub e "'" then "Check for missing quotes around strings or keys"
      else "Check for missing commas, brackets, or quotes"
    else if hasSub e "unexpected end" then
      "Check for missing closing brackets, braces, or quotes"
    else if hasSub e "unexpected number" then
      "Check for invalid number format or missing quotes"
    else if hasSub e "unexpected string" then
      "Check for missing quotes or invalid string format"
    else if hasSub e "duplicate key" then "Remove duplicate object keys"
    else if hasSub e "=" then
      "Remove the \"=\" character - it's not valid in JSON"
    else if hasSub e ";" then
      "Remove the \";\" character - it's not valid in JSON"
    else if hasSub e "<" || hasSub e ">" then
      "Remove the \"<\" or \">\" characters - they're not valid in JSON"
    else "Check the syntax around the highlighted position"

/-! ## The retry orchestrator (`safeParse`, useJsonProcessor.ts) -/

/-- `\bword\b` found at the head of the input (boundary before already
established by the caller). -/
def wordAtHead (word : List Char) (s : List Char) : Bool :=
  word.isPrefixOf s &&
    (match s.drop word.length with | [] => true | a :: _ => ¬ isWordC a)

/-- `\b0m[digits]+\b` found at the head of the input. -/
def radixAtHead (marker : Char) (dig : Char → Bool) (s : List Char) : Bool :=
  match s with
  | '0' :: m :: r =>
    if m = marker then
      let (run, rest) := r.span dig
      run ≠ [] && (match rest with | [] => true | a :: _ => ¬ isWordC a)
    else false
  | _ => false

/-- The scan behind the `needsRepair` test of `safeParse`:
`/0[1-9]|\.\d+|\d+\.|\b(NaN|Infinity|undefined|0x[0-9a-fA-F]+|0b[01]+|0o[0-7]+)\b|\d+[eE]/.test(text)`
(for a boolean test, a match existing at any position in any alternative). -/
def needsRepairGo : Option Char → List Char → Bool
  | _, [] => false
  | prev, c :: r =>
    let boundary := match prev with | none => true | some p => ¬ isWordC p
    if c = '0' && (match r with | d :: _ => isPosDigitC d | [] => false) then true
    else if c = '.' && (match r with | d :: _ => isDigitC d | [] => false) then true
    else if isDigitC c && (match r with | '.' :: _ => true | _ => false) then true
    else if isDigitC c && (match r with | e :: _ => e = 'e' || e = 'E' | [] => false) then true
    else if boundary && wordAtHead ['N', 'a', 'N'] (c :: r) then true
    else if boundary && wordAtHead ("Infinity".data) (c :: r) then true
    else if boundary && wordAtHead ("undefined".data) (c :: r) then true
    else if boundary && c = '0' && radixAtHead 'x' isHexC (c :: r) then true
    else if boundary && c = '0' && radixAtHead 'b' (fun x => x = '0' || x = '1') (c :: r) then true
    else if boundary && c = '0' && radixAtHead 'o' (fun x => '0' ≤ x && x ≤ '7') (c :: r) then true
    else needsRepairGo (some c) r

/-- The `needsRepair` regex test of `safeParse`. -/
def needsRepair (text : String) : Bool := needsRepairGo none text.data

/-- The result record of `safeParse` (`JsonParseResult` in types).  The
elapsed-time field of the source is wall-clock telemetry, explicitly not a
correctness contract (spec §4.2), and is not modelled. -/
structure JsonParseResult where
  ok : Option Bool
  obj : Option JsonValue := none
  cleaned : String := ""
  error : Option String := none
  pos : Option Nat := none
  line : Option Nat := none
  col : Option Nat := none
  token : Option String := none
deriving DecidableEq

/-- JS `v || undefined` on an optional number (0 is falsy). -/
def natFalsy : Option Nat → Option Nat
  | some 0 => none
  | x => x

/-- JS `v || undefined` on an optional string (the empty string is falsy). -/
def tokFalsy : Option String → Option String
  | some "" => none
  | x => x

/-- `safeParse` (useJsonProcessor.ts): the retry orchestrator.  Blank input is
the `ok: null` sentinel; input matching the `needsRepair` pre-test is repaired
once and parsed; other input is parsed raw, then repaired and parsed, then
repaired a second time and parsed; any final failure is classified through
`detectOriginalJsonErrors` on the original text, falling back to
`locateJsonError` on the (twice-)repaired text. -/
def safeParse (emsg : String → String) (text : String) : JsonParseResult :=
  if trimS text = "" then { ok := none, cleaned := "" }
  else if needsRepair text then
    let cleaned := repairJson text
    match jsonParseWith emsg cleaned with
    | .ok v => { ok := some true, obj := some v, cleaned := cleaned }
    | .error rmsg =>
      match detectOriginalJsonErrors emsg text with
      | some info =>
        { ok := some false,
          error := some (strOr info.error (strOr rmsg "Unknown error")),
          cleaned := cleaned,
          pos := natFalsy info.pos, line := natFalsy info.line,
          col := natFalsy info.col, token := tokFalsy info.token }
      | none =>
        let r := locateJsonError rmsg cleaned
        { ok := some false, error := some rmsg, cleaned := cleaned,
          pos := natFalsy r.pos, line := natFalsy r.line,
          col := natFalsy r.col, token := tokFalsy r.token }
  else
    match jsonParseWith emsg text with
    | .ok v => { ok := some true, obj := some v, cleaned := text }
    | .error _ =>
      let cleaned := repairJson text
      match jsonParseWith emsg cleaned with
      | .ok v => { ok := some true, obj := some v, cleaned := cleaned }
      | .error _ =>
        let doubleCleaned := repairJson cleaned
        match jsonParseWith emsg doubleCleaned with
        | .ok v => { ok := some true, obj := some v, cleaned := doubleCleaned }
        | .error smsg =>
          match detectOriginalJsonErrors emsg text with
          | some info =>
            { ok := some false,
              error := some (strOr info.error (strOr smsg "Unknown error")),
              cleaned := doubleCleaned,
              pos := natFalsy info.pos, line := natFalsy info.line,
              col := natFalsy info.col, token := tokFalsy info.token }
          | none =>
            let r := locateJsonError smsg doubleCleaned
            { ok := some false, error := some (strOr smsg "Unknown error"),
              cleaned := doubleCleaned,
              pos := natFalsy r.pos, line := natFalsy r.line,
              col := natFalsy r.col, token := tokFalsy r.token }

/-! ## Concrete scenario inputs and collaborator message instances -/

/-- A fixed collaborator message (used where a scenario's outcome is
independent of the parser's message shape). -/
def emsgAny : String → String := fun _ => "Unexpected error"

/-- The spec §8 scenario input for the repair round-trip. -/
def inputC6 : String :=
  "\x7buser: 'nate', id: 12345, active: True, tags: ['a','b',],\x7d"

/-- The JSON value the spec claims `inputC6` repairs to (`active` a boolean). -/
def claimedC6 : JsonValue :=
  .obj (.cons "user" (.str "nate") (.cons "id" (.num 12345 0)
    (.cons "active" (.bool true)
      (.cons "tags" (.arr (.cons (.str "a") (.cons (.str "b") .nil))) .nil))))

/-- The JSON value `inputC6` actually repairs to (`active` the string
`"true"`: the value-quoting rule runs before literal translation and wraps
the bare `True`, and the translation then rewrites it inside the quotes). -/
def actualC6 : JsonValue :=
  .obj (.cons "user" (.str "nate") (.cons "id" (.num 12345 0)
    (.cons "active" (.str "true")
      (.cons "tags" (.arr (.cons (.str "a") (.cons (.str "b") .nil))) .nil))))

/-- The spec §8 duplicated-comma scenario input. -/
def inputC7 : String := "\x7b\"a\": 1,,\"b\":2\x7d"

/-- An input on which the offset-space bug shows: an unquoted key followed by
an unterminated string.  Repair quotes the key, growing the text from 6 to 8
characters, and the string stays unterminated. -/
def inputC1 : String := "\x7ba: \"b"

/-- V8-style parser messages for the two texts `safeParse` feeds the parser on
`inputC1` (the raw text and its one-step/two-step repair).  Neither message
contains the `Unexpected token/end/number/string` keywords the structural-scan
fallback filter looks for — a shape the collaborator contract (§6) allows. -/
def emsgModern : String → String := fun t =>
  if t = inputC1 then
    "Expected property name or '\x7d' in JSON at position 1 (line 1 column 2)"
  else "Unterminated string in JSON at position 8 (line 1 column 9)"

/-- The curly-quoted string `‘a’`: its first repair pass yields the straight
single-quoted `'a'` (quote normalisation runs after the single-quote
conversion), which a second pass rewrites again to `"a"`. -/
def inputC3 : String := String.mk [Char.ofNat 0x2018, 'a', Char.ofNat 0x2019]

/-- A `//` comment line ending in a closing brace, followed by a property
line: the legacy missing-comma scan reports the comment line. -/
def inputC9 : String := "// \x7d\na: 1"

/-! ## Helper lemmas -/

/-- The empty string is not valid JSON. -/
theorem isValidJson_empty : isValidJson "" = false := by decide

/-- The short-circuit of `repairJson`: input that already parses as strict
JSON is returned unchanged. -/
theorem repairJson_of_valid (t : String) (h : isValidJson t = true) :
    repairJson t = t := by
  have ht : ¬ (t = "") := by
    rintro rfl
    exact absurd h (by decide)
  simp only [repairJson, if_neg ht, h, if_true]

/-- `jsonParseWith` on invalid text reports the collaborator's message. -/
theorem jsonParseWith_none (emsg : String → String) (t : String)
    (h : jsonParse t = none) : jsonParseWith emsg t = .error (emsg t) := by
  simp [jsonParseWith, h]

/-- `jsonParseWith` on valid text returns the parsed value. -/
theorem jsonParseWith_some (emsg : String → String) (t : String) (v : JsonValue)
    (h : jsonParse t = some v) : jsonParseWith emsg t = .ok v := by
  simp [jsonParseWith, h]

/-- `isValidJson` as a statement about `jsonParse`. -/
theorem isValidJson_false_iff (t : String) :
    isValidJson t = false ↔ jsonParse t = none := by
  cases h : jsonParse t <;> simp [isValidJson, h]

set_option maxRecDepth 100000

/-- `subIdxGo` only threads its offset through additively. -/
theorem subIdxGo_shift (pat : List Char) :
    ∀ (s : List Char) (i : Nat), subIdxGo pat s i = (subIdxGo pat s 0).map (· + i)
  | [], i => by
    simp only [subIdxGo]
    split <;> simp
  | c :: r, i => by
    simp only [subIdxGo]
    split
    · simp
    · rw [subIdxGo_shift pat r (i + 1), subIdxGo_shift pat r 1, Option.map_map]
      congr 1
      funext x
      simp
      omega

/-- A found occurrence of `pat` fits inside the subject. -/
theorem subIdxGo_bound (pat : List Char) :
    ∀ (s : List Char) (j : Nat), subIdxGo pat s 0 = some j → j + pat.length ≤ s.length
  | [], j, h => by
    simp only [subIdxGo] at h
    split at h
    · rename_i hpref
      have := (List.isPrefixOf_iff_prefix.mp hpref).length_le
      cases h
      simpa using this
    · cases h
  | c :: r, j, h => by
    simp only [subIdxGo] at h
    split at h
    · rename_i hpref
      have := (List.isPrefixOf_iff_prefix.mp hpref).length_le
      cases h
      simpa using this
    · rw [subIdxGo_shift pat r 1] at h
      cases hr : subIdxGo pat r 0 with
      | none => rw [hr] at h; cases h
      | some j0 =>
        rw [hr] at h
        simp only [Option.map] at h
        injection h with h
        have := subIdxGo_bound pat r j0 hr
        simp only [List.length_cons]
        omega

/-- `indexOf` bound at the top level. -/
theorem subIdx_bound (s pat : List Char) (j : Nat) (h : subIdx s pat = some j) :
    j + pat.length ≤ s.length :=
  subIdxGo_bound pat s j h

/-- If `pat` occurs somewhere in the subject, `indexOf` finds an occurrence. -/
theorem subIdxGo_of_drop (pat : List Char) :
    ∀ (s : List Char) (k : Nat), pat.isPrefixOf (s.drop k) = true →
      (subIdxGo pat s 0).isSome = true
  | s, 0, h => by
    cases s with
    | nil =>
      have hp : pat = [] := List.prefix_nil.mp (List.isPrefixOf_iff_prefix.mp h)
      simp [subIdxGo, hp]
    | cons c r => simp only [List.drop] at h; simp [subIdxGo, h]
  | [], k + 1, h => by simp only [List.drop_nil] at h; simp [subIdxGo, h]
  | c :: r, k + 1, h => by
    simp only [List.drop_succ_cons] at h
    have := subIdxGo_of_drop pat r k h
    simp only [subIdxGo]
    split
    · simp
    · rw [subIdxGo_shift pat r 1]
      simpa using this

/-- The doubled-comma guard guarantees a `,,` occurrence. -/
theorem hasDbl_sub : ∀ (L : List Char), hasNonCommaDblComma L = true →
    ∃ k, ([',', ','].isPrefixOf (L.drop k)) = true
  | a :: b :: c :: r, h => by
    simp only [hasNonCommaDblComma, Bool.or_eq_true] at h
    rcases h with h | h
    · simp only [Bool.and_eq_true, decide_eq_true_eq] at h
      obtain ⟨⟨_, hb⟩, hc⟩ := h
      subst hb; subst hc
      exact ⟨1, by simp [List.isPrefixOf]⟩
    · obtain ⟨k, hk⟩ := hasDbl_sub (b :: c :: r) h
      exact ⟨k + 1, hk⟩
  | [], h => by simp [hasNonCommaDblComma] at h
  | [_], h => by simp [hasNonCommaDblComma] at h
  | [_, _], h => by simp [hasNonCommaDblComma] at h

/-- The trailing-comma guard guarantees a `,` occurrence. -/
theorem hasTrail_sub : ∀ (L : List Char), hasTrailingCommaClose L = true →
    ∃ k, ([','].isPrefixOf (L.drop k)) = true
  | [], h => by simp [hasTrailingCommaClose] at h
  | c :: r, h => by
    by_cases hc : c = ','
    · exact ⟨0, by simp [List.isPrefixOf, hc]⟩
    · simp only [hasTrailingCommaClose, if_neg hc] at h
      obtain ⟨k, hk⟩ := hasTrail_sub r h
      exact ⟨k + 1, hk⟩

/-- A line that ends in a given closer (modulo whitespace) is nonempty. -/
theorem endsCloseWs_ne_nil (x : Char) (L : List Char) (h : endsCloseWs x L = true) :
    1 ≤ L.length := by
  cases L with
  | nil => simp [endsCloseWs, rtrimL] at h
  | cons c r => simp

/-- The line walk of `locateJsonError` returns only validated columns: the
reported line is the `k`-th of the remaining lines and the column lies within
`[1, lineLength + 1]` of exactly that line. -/
theorem locateWalk_bound : ∀ (lines : List String) (idx cur pos l c : Nat),
    locateWalk lines idx cur pos = some (l, c) →
    ∃ k, l = idx + k + 1 ∧ 1 ≤ c ∧ c ≤ (lines.getD k "").length + 1
  | [], _, _, _, _, _, h => by simp [locateWalk] at h
  | ln :: rest, idx, cur, pos, l, c, h => by
    simp only [locateWalk] at h
    split at h
    · split at h
      · rename_i hge hcol
        injection h with h
        injection h with h1 h2
        refine ⟨0, by omega, ?_⟩
        simp only [Bool.and_eq_true, decide_eq_true_eq] at hcol
        simp only [List.getD_cons_zero]
        omega
      · cases h
    · obtain ⟨k, hk1, hk2, hk3⟩ :=
        locateWalk_bound rest (idx + 1) (cur + ln.length + 1) pos l c h
      exact ⟨k + 1, by omega, hk2, by simpa using hk3⟩

/-- Column-bound invariant of `locateJsonError`: a reported position's column
always lies within `[1, lineLength + 1]` of the line it names. -/
theorem locateJsonError_col_bound (msg text : String) (l c : Nat)
    (hl : (locateJsonError msg text).line = some l)
    (hc : (locateJsonError msg text).col = some c) :
    1 ≤ c ∧ c ≤ (lineOf text l).length + 1 := by
  cases hp : msgPos msg with
  | none => simp [locateJsonError, hp] at hl
  | some p =>
    simp only [locateJsonError, hp] at hl hc
    cases hw : locateWalk (splitNl text) 0 0
        ((max 0 (min ((text.length : Int) - 1) (p : Int))).toNat) with
    | none => rw [hw] at hl; cases hl
    | some lc0 =>
      obtain ⟨l0, c0⟩ := lc0
      rw [hw] at hl hc
      simp only at hl hc
      have hll : l0 = l := by injection hl
      have hcc : c0 = c := by injection hc
      obtain ⟨k, hk1, hk2, hk3⟩ := locateWalk_bound (splitNl text) 0 0 _ l0 c0 hw
      rw [lineOf, show l - 1 = k by omega]
      exact ⟨by omega, by omega⟩

/-- Every report of the structural line scan names a non-skipped line (so
never an empty or comment line) and keeps its column within
`[1, lineLength + 1]` of that line. -/
theorem detectScan_report : ∀ (lines : List String) (n j : Nat) (r : DetectRes),
    detectScan lines n j = some r → ∀ l, r.line = some l →
    ∃ k, l = n + k + 1 ∧ skipLineB (lines.getD k "").data = false ∧
      ∀ c, r.col = some c → 1 ≤ c ∧ c ≤ (lines.getD k "").length + 1
  | [], n, j, r, h => by simp [detectScan] at h
  | line :: rest, n, j, r, h => by
    simp only [detectScan] at h
    by_cases hskip : skipLineB line.data = true
    · rw [if_pos hskip] at h
      intro l hl
      obtain ⟨k, hk1, hk2, hk3⟩ := detectScan_report rest (n + 1) _ r h l hl
      exact ⟨k + 1, by omega, by simpa using hk2, by simpa using hk3⟩
    · rw [if_neg hskip] at h
      by_cases h1 : hasNonCommaDblComma line.data = true
      · rw [if_pos h1] at h
        obtain ⟨kk, hkk⟩ := hasDbl_sub _ h1
        have hsome := subIdxGo_of_drop _ _ _ hkk
        obtain ⟨i0, hi0⟩ := Option.isSome_iff_exists.mp hsome
        have hbd := subIdx_bound line.data [',', ','] i0 hi0
        simp only [subIdx, hi0, Option.getD_some] at h
        injection h with h
        intro l hl
        rw [← h] at hl
        simp only at hl
        injection hl with hl
        refine ⟨0, by omega, by simpa using hskip, ?_⟩
        intro c hc
        rw [← h] at hc
        simp only at hc
        injection hc with hc
        simp only [List.getD_cons_zero, List.length_cons] at hbd ⊢
        simp only [String.length]
        omega
      · rw [if_neg h1] at h
        by_cases h2 : hasTrailingCommaClose line.data = true
        · rw [if_pos h2] at h
          obtain ⟨kk, hkk⟩ := hasTrail_sub _ h2
          have hsome := subIdxGo_of_drop _ _ _ hkk
          obtain ⟨i0, hi0⟩ := Option.isSome_iff_exists.mp hsome
          have hbd := subIdx_bound line.data [','] i0 hi0
          simp only [subIdx, hi0, Option.getD_some] at h
          injection h with h
          intro l hl
          rw [← h] at hl
          simp only at hl
          injection hl with hl
          refine ⟨0, by omega, by simpa using hskip, ?_⟩
          intro c hc
          rw [← h] at hc
          simp only at hc
          injection hc with hc
          simp only [List.getD_cons_zero, List.length_cons] at hbd ⊢
          simp only [String.length]
          omega
        · rw [if_neg h2] at h
          by_cases h3 : (endsCloseWs '}' line.data && nextLineIdentColon rest) = true
          · rw [if_pos h3] at h
            injection h with h
            intro l hl
            rw [← h] at hl
            simp only at hl
            injection hl with hl
            refine ⟨0, by omega, by simpa using hskip, ?_⟩
            intro c hc
            rw [← h] at hc
            simp only at hc
            injection hc with hc
            simp only [List.getD_cons_zero, String.length]
            omega
          · rw [if_neg h3] at h
            by_cases h4 : (endsCloseWs ']' line.data && nextLineIdentColon rest) = true
            · rw [if_pos h4] at h
              injection h with h
              intro l hl
              rw [← h] at hl
              simp only at hl
              injection hl with hl
              refine ⟨0, by omega, by simpa using hskip, ?_⟩
              intro c hc
              rw [← h] at hc
              simp only at hc
              injection hc with hc
              simp only [List.getD_cons_zero, String.length]
              omega
            · rw [if_neg h4] at h
              by_cases h5 : (endsWithValue line.data && nextLineIdentColon rest) = true
              · rw [if_pos h5] at h
                injection h with h
                intro l hl
                rw [← h] at hl
                simp only at hl
                injection hl with hl
                refine ⟨0, by omega, by simpa using hskip, ?_⟩
                intro c hc
                rw [← h] at hc
                simp only at hc
                injection hc with hc
                simp only [List.getD_cons_zero, String.length]
                omega
              · rw [if_neg h5] at h
                by_cases h6 : (endsCloseWs '{' line.data && balanceGo '{' '}' rest 1 > 0) = true
                · rw [if_pos h6] at h
                  simp only [Bool.and_eq_true] at h6
                  have hlen := endsCloseWs_ne_nil '{' line.data h6.1
                  injection h with h
                  intro l hl
                  rw [← h] at hl
                  simp only at hl
                  injection hl with hl
                  refine ⟨0, by omega, by simpa using hskip, ?_⟩
                  intro c hc
                  rw [← h] at hc
                  simp only at hc
                  injection hc with hc
                  simp only [List.getD_cons_zero, String.length]
                  omega
                · rw [if_neg h6] at h
                  by_cases h7 : (endsCloseWs '[' line.data && balanceGo '[' ']' rest 1 > 0) = true
                  · rw [if_pos h7] at h
                    simp only [Bool.and_eq_true] at h7
                    have hlen := endsCloseWs_ne_nil '[' line.data h7.1
                    injection h with h
                    intro l hl
                    rw [← h] at hl
                    simp only at hl
                    injection hl with hl
                    refine ⟨0, by omega, by simpa using hskip, ?_⟩
                    intro c hc
                    rw [← h] at hc
                    simp only at hc
                    injection hc with hc
                    simp only [List.getD_cons_zero, String.length]
                    omega
                  · rw [if_neg h7] at h
                    intro l hl
                    obtain ⟨k, hk1, hk2, hk3⟩ := detectScan_report rest (n + 1) _ r h l hl
                    exact ⟨k + 1, by omega, by simpa using hk2, by simpa using hk3⟩

/-- Column-bound invariant of `detectOriginalJsonErrors`: whether a report
comes from the structural scan or from the message-derived fallback, its
column lies within `[1, lineLength + 1]` of the named line of the scanned
text. -/
theorem detect_col_bound (emsg : String → String) (text : String) (r : DetectRes)
    (l c : Nat) (hr : detectOriginalJsonErrors emsg text = some r)
    (hl : r.line = some l) (hc : r.col = some c) :
    1 ≤ c ∧ c ≤ (lineOf text l).length + 1 := by
  by_cases ht : text = ""
  · rw [detectOriginalJsonErrors, if_pos ht] at hr; cases hr
  · rw [detectOriginalJsonErrors, if_neg ht] at hr
    cases hjp : jsonParse text with
    | some v => rw [hjp] at hr; cases hr
    | none =>
      rw [hjp] at hr
      simp only at hr
      cases hscan : detectScan (splitNl text) 0 0 with
      | some r0 =>
        rw [hscan] at hr
        injection hr with hr
        subst hr
        obtain ⟨k, hk1, hk2, hk3⟩ := detectScan_report (splitNl text) 0 0 r0 hscan l hl
        have := hk3 c hc
        rw [lineOf, show l - 1 = k by omega]
        exact this
      | none =>
        rw [hscan] at hr
        generalize hem : strOr (emsg text) "Unknown error" = em at hr
        by_cases hkw : (hasSub em "Unexpected token" || hasSub em "Unexpected end" ||
            hasSub em "Unexpected number" || hasSub em "Unexpected string") = true
        · rw [if_pos hkw] at hr
          cases hfp : (locateJsonError em text).pos with
          | none => simp only [hfp] at hr; injection hr with hr; rw [← hr] at hl; cases hl
          | some p =>
            cases hfl : (locateJsonError em text).line with
            | none => simp only [hfp, hfl] at hr; injection hr with hr; rw [← hr] at hl; cases hl
            | some l0 =>
              cases hfc : (locateJsonError em text).col with
              | none =>
                simp only [hfp, hfl, hfc] at hr; injection hr with hr; rw [← hr] at hl; cases hl
              | some c0 =>
                simp only [hfp, hfl, hfc] at hr
                injection hr with hr
                rw [← hr] at hl hc
                simp only at hl hc
                have hll : l0 = l := by injection hl
                have hcc : c0 = c := by injection hc
                subst hll; subst hcc
                exact locateJsonError_col_bound em text l0 c0 hfl hfc
        · rw [if_neg hkw] at hr
          cases hr

/-- Every report of the legacy invalid-character scan names a non-skipped
line. -/
theorem probCharScan_skip : ∀ (lines : List String) (n p : Nat) (r : LocateRes),
    probCharScan lines n p = some r → ∀ l, r.line = some l →
    ∃ k, l = n + k + 1 ∧ skipLineB (lines.getD k "").data = false
  | [], n, p, r, h => by simp [probCharScan] at h
  | line :: rest, n, p, r, h => by
    simp only [probCharScan] at h
    by_cases hskip : skipLineB line.data = true
    · rw [if_pos hskip] at h
      intro l hl
      obtain ⟨k, hk1, hk2⟩ := probCharScan_skip rest (n + 1) _ r h l hl
      exact ⟨k + 1, by omega, by simpa using hk2⟩
    · rw [if_neg hskip] at h
      cases hg : probCharLineGo line.data 0 false with
      | some ct =>
        obtain ⟨col, tok⟩ := ct
        rw [hg] at h
        simp only at h
        injection h with h
        intro l hl
        rw [← h] at hl
        simp only at hl
        injection hl with hl
        exact ⟨0, by omega, by simpa using hskip⟩
      | none =>
        rw [hg] at h
        simp only at h
        intro l hl
        obtain ⟨k, hk1, hk2⟩ := probCharScan_skip rest (n + 1) _ r h l hl
        exact ⟨k + 1, by omega, by simpa using hk2⟩

/-- The `ok` field of `safeParse` on non-blank input is always a definite
verdict. -/
theorem safeParse_ok_cases (emsg : String → String) (text : String)
    (hb : ¬ (trimS text = "")) :
    (safeParse emsg text).ok = some true ∨ (safeParse emsg text).ok = some false := by
  simp only [safeParse, if_neg hb]
  by_cases hn : needsRepair text = true
  · simp only [hn, if_true]
    cases hp : jsonParseWith emsg (repairJson text) with
    | ok v => simp [hp]
    | error m =>
      cases hd : detectOriginalJsonErrors emsg text <;> simp [hp, hd]
  · simp only [hn, if_false]
    cases hp1 : jsonParseWith emsg text with
    | ok v => simp [hp1]
    | error m1 =>
      cases hp2 : jsonParseWith emsg (repairJson text) with
      | ok v => simp [hp1, hp2]
      | error m2 =>
        cases hp3 : jsonParseWith emsg (repairJson (repairJson text)) with
        | ok v => simp [hp1, hp2, hp3]
        | error m3 =>
          cases hd : detectOriginalJsonErrors emsg text <;> simp [hp1, hp2, hp3, hd]

/-! ## The claims -/

/-- C1: the claim states that every failure position reported by `safeParse`
indexes into the original raw input text.  The code violates this: on
`inputC1` (`\x7ba: "b`, 6 characters) with the V8-style collaborator messages
`emsgModern` — a message shape the §6 contract allows — the structural scan
finds nothing, the message filter rejects the shape, and the fallback locator
computes the position against the twice-repaired text `\x7b"a": "b` (8
characters), reporting offset 7 and column 8, outside the original text.  The
spec's §9 design note itself flags this offset-space mixup as a bug in the
implementation. -/
theorem c1_failure_position_in_repaired_text :
    (safeParse emsgModern inputC1).ok = some false ∧
    (safeParse emsgModern inputC1).pos = some 7 ∧
    (safeParse emsgModern inputC1).col = some 8 ∧
    inputC1.length = 6 := by decide

/-- C2: input that already parses as strict JSON is returned by `repairJson`
character for character (the short-circuit check fires before any rewriting is
applied). -/
theorem c2_repair_identity_on_valid_json (text : String)
    (h : isValidJson text = true) : repairJson text = text :=
  repairJson_of_valid text h

/-- Witness for C2 at the valid input `1`. -/
theorem c2_repair_identity_witness : isValidJson "1" = true ∧ repairJson "1" = "1" :=
  ⟨by decide, c2_repair_identity_on_valid_json "1" (by decide)⟩

/-- C3 counterexample: `repair ∘ repair` is not `repair` on all inputs.  On
the curly-quoted `inputC3` (`‘a’`) the first pass only normalises the curly
quotes to `'a'` (quote normalisation is the last rewrite, after the
single-quote conversion already ran), and the second pass then rewrites
`'a'` to `"a"`. -/
theorem c3_double_repair_changes_curly_quote_input :
    repairJson (repairJson inputC3) ≠ repairJson inputC3 := by decide

/-- C3 (amended): a second repair pass is the identity whenever the first pass
produced strictly valid JSON — the short-circuit returns it unchanged.  (The
unamended claim quantified over all inputs; `inputC3` refutes that.) -/
theorem c3_repair_idempotent_once_output_valid (x : String)
    (h : isValidJson (repairJson x) = true) :
    repairJson (repairJson x) = repairJson x :=
  repairJson_of_valid _ h

/-- Witness for the amended C3 at the input `1`. -/
theorem c3_repair_idempotent_witness : isValidJson (repairJson "1") = true ∧
    repairJson (repairJson "1") = repairJson "1" :=
  ⟨by decide, c3_repair_idempotent_once_output_valid "1" (by decide)⟩

/-- C4: `safeParse` (and with it `repairJson`) is total — it is a function
into `JsonParseResult`, its `ok: null` sentinel appears exactly on blank
input, and when strict parsing fails at every stage the failure is converted
into an `ok: false` result value rather than propagated (for any collaborator
message shape `emsg`). -/
theorem c4_process_total_never_throws (emsg : String → String) (text : String) :
    ((safeParse emsg text).ok = none ↔ trimS text = "") ∧
    (trimS text ≠ "" → isValidJson text = false → isValidJson (repairJson text) = false →
      isValidJson (repairJson (repairJson text)) = false →
      (safeParse emsg text).ok = some false) := by
  by_cases hb : trimS text = ""
  · exact ⟨by simp [safeParse, hb], fun h => absurd hb h⟩
  · constructor
    · constructor
      · intro h
        rcases safeParse_ok_cases emsg text hb with h2 | h2 <;> rw [h] at h2 <;> cases h2
      · intro h; exact absurd h hb
    · intro _ h2 h3 h4
      have hp1 := jsonParseWith_none emsg text ((isValidJson_false_iff text).mp h2)
      have hp2 := jsonParseWith_none emsg (repairJson text)
        ((isValidJson_false_iff _).mp h3)
      have hp3 := jsonParseWith_none emsg (repairJson (repairJson text))
        ((isValidJson_false_iff _).mp h4)
      simp only [safeParse, if_neg hb]
      by_cases hn : needsRepair text = true
      · simp only [hn, if_true]
        cases hd : detectOriginalJsonErrors emsg text <;> simp [hp2, hd]
      · simp only [hn, if_false]
        cases hd : detectOriginalJsonErrors emsg text <;> simp [hp1, hp2, hp3, hd]

/-- Witness for C4 at the unrepairable input `=`. -/
theorem c4_process_total_witness : (safeParse emsgAny "=").ok = some false :=
  (c4_process_total_never_throws emsgAny "=").2 (by decide) (by decide)
    (by decide) (by decide)

/-- C5: whenever the error locator (`locateJsonError`) or the heuristic scan
(`detectOriginalJsonErrors`) reports a position, the 1-based column lies
within `[1, lineLength + 1]` of the named line of the text the position was
computed against; positions that cannot meet the bound are omitted entirely. -/
theorem c5_position_column_bound (emsg : String → String) (msg text : String)
    (l c : Nat) :
    ((locateJsonError msg text).line = some l → (locateJsonError msg text).col = some c →
      1 ≤ c ∧ c ≤ (lineOf text l).length + 1) ∧
    (∀ r, detectOriginalJsonErrors emsg text = some r → r.line = some l →
      r.col = some c → 1 ≤ c ∧ c ≤ (lineOf text l).length + 1) :=
  ⟨fun hl hc => locateJsonError_col_bound msg text l c hl hc,
   fun r hr hl hc => detect_col_bound emsg text r l c hr hl hc⟩

/-- Witness for C5: the locator reports column 4 of line 1 on `abcdef`. -/
theorem c5_position_column_bound_witness : 1 ≤ 4 ∧ 4 ≤ (lineOf "abcdef" 1).length + 1 :=
  (c5_position_column_bound emsgAny "at position 3" "abcdef" 1 4).1
    (by decide) (by decide)

/-- C6 counterexample: on the spec §8 scenario input, `safeParse` succeeds but
the cleaned text parses to an object whose `active` field is the string
`"true"`, not the boolean `true` the claim demands: the value-quoting rule
runs before the `True → true` literal translation and wraps the bare `True`
in quotes. -/
theorem c6_scenario_active_is_string_not_bool :
    (safeParse emsgAny inputC6).ok = some true ∧
    jsonParse ((safeParse emsgAny inputC6).cleaned) = some actualC6 ∧
    actualC6 ≠ claimedC6 := by decide

/-- C6 (amended): the scenario input repairs successfully for any collaborator
message shape, and its cleaned text parses to
`\x7b"user":"nate","id":12345,"active":"true","tags":["a","b"]\x7d` — as the
unamended claim states except that `active` is the string `"true"`. -/
theorem c6_scenario_succeeds_with_active_string (emsg : String → String) :
    (safeParse emsg inputC6).ok = some true ∧
    jsonParse ((safeParse emsg inputC6).cleaned) = some actualC6 := by
  have hb : ¬ (trimS inputC6 = "") := by decide
  have hn : needsRepair inputC6 = false := by decide
  have h0 : jsonParse inputC6 = none := by decide
  have h1 : jsonParse (repairJson inputC6) = some actualC6 := by decide
  simp only [safeParse, if_neg hb, hn, Bool.false_eq_true, if_false,
    jsonParseWith_none emsg inputC6 h0, jsonParseWith_some emsg _ _ h1]
  exact ⟨trivial, h1⟩

/-- Closed witness for the amended C6 at a fixed collaborator message. -/
theorem c6_scenario_witness : (safeParse emsgAny inputC6).ok = some true ∧
    jsonParse ((safeParse emsgAny inputC6).cleaned) = some actualC6 :=
  c6_scenario_succeeds_with_active_string emsgAny

/-- C7: on `\x7b"a": 1,,"b":2\x7d` the process fails, classified as the
duplicated-comma structural error with offending token `,` (for any
collaborator message shape: the structural scan fires before the message is
consulted). -/
theorem c7_duplicate_comma_detected (emsg : String → String) :
    (safeParse emsg inputC7).ok = some false ∧
    (safeParse emsg inputC7).error = some "Unexpected comma - remove duplicate comma" ∧
    (safeParse emsg inputC7).token = some "," := by
  have hb : ¬ (trimS inputC7 = "") := by decide
  have hn : needsRepair inputC7 = false := by decide
  have h0 : jsonParse inputC7 = none := by decide
  have hr : repairJson inputC7 = inputC7 := by decide
  have hscan : detectScan (splitNl inputC7) 0 0 =
      some ⟨some 8, some 1, some 9, some ",", "Unexpected comma - remove duplicate comma"⟩ := by
    decide
  have hd : detectOriginalJsonErrors emsg inputC7 =
      some ⟨some 8, some 1, some 9, some ",", "Unexpected comma - remove duplicate comma"⟩ := by
    simp only [detectOriginalJsonErrors, if_neg (show ¬ (inputC7 = "") by decide), h0, hscan]
  simp only [safeParse, if_neg hb, hn, Bool.false_eq_true, if_false,
    jsonParseWith_none emsg _ h0, hr, hd]
  refine ⟨trivial, ?_, by simp [tokFalsy]⟩
  simp [strOr]

/-- Closed witness for C7 at a fixed collaborator message. -/
theorem c7_duplicate_comma_witness : (safeParse emsgAny inputC7).ok = some false ∧
    (safeParse emsgAny inputC7).error = some "Unexpected comma - remove duplicate comma" ∧
    (safeParse emsgAny inputC7).token = some "," :=
  c7_duplicate_comma_detected emsgAny

/-- C8 counterexample: the claim demands the generic fallback for every
message matching no specific cause, but on the empty message (which matches
none) `getErrorSuggestion` returns the empty string, not the fallback. -/
theorem c8_empty_message_returns_empty :
    getErrorSuggestion "" ≠ "Check the syntax around the highlighted position" := by
  decide

/-- C8 (amended): for every NON-empty message matching no specific structural,
token-class, or single-character cause, the one returned suggestion is the
generic fallback; on the empty message the mapper returns the empty string
instead. -/
theorem c8_fallback_suggestion (e : String) (h0 : e ≠ "")
    (h1 : hasSub (lowerStr e) "duplicate comma" = false)
    (h2 : hasSub (lowerStr e) "unexpected comma" = false)
    (h3 : hasSub (lowerStr e) "missing comma" = false)
    (h4 : hasSub (lowerStr e) "missing closing brace" = false)
    (h5 : hasSub (lowerStr e) "missing closing bracket" = false)
    (h6 : hasSub (lowerStr e) "bracket balance" = false)
    (h7 : hasSub (lowerStr e) "unexpected token" = false)
    (h8 : hasSub (lowerStr e) "unexpected end" = false)
    (h9 : hasSub (lowerStr e) "unexpected number" = false)
    (h10 : hasSub (lowerStr e) "unexpected string" = false)
    (h11 : hasSub (lowerStr e) "duplicate key" = false)
    (h12 : hasSub (lowerStr e) "=" = false)
    (h13 : hasSub (lowerStr e) ";" = false)
    (h14 : hasSub (lowerStr e) "<" = false)
    (h15 : hasSub (lowerStr e) ">" = false) :
    getErrorSuggestion e = "Check the syntax around the highlighted position" := by
  simp [getErrorSuggestion, h0, h1, h2, h3, h4, h5, h6, h7, h8, h9, h10, h11,
    h12, h13, h14, h15]

/-- Witness for the amended C8 on a message matching no cause. -/
theorem c8_fallback_suggestion_witness : getErrorSuggestion "mystery problem" =
    "Check the syntax around the highlighted position" :=
  c8_fallback_suggestion "mystery problem" (by decide) (by decide) (by decide)
    (by decide) (by decide) (by decide) (by decide) (by decide) (by decide)
    (by decide) (by decide) (by decide) (by decide) (by decide) (by decide)
    (by decide)

/-- C9 counterexample: the claim's "never reports a defect on a comment line"
fails for the legacy locator: its missing-comma pre-scan (`findMissingCommas`)
skips only empty lines, so on `inputC9` (`// \x7d` followed by `a: 1`) the
legacy `findFirstProblematicChar` reports line 1, a `//` comment line. -/
theorem c9_legacy_missing_comma_scan_reports_comment_line :
    (findFirstProblematicChar inputC9).line = some 1 ∧
    skipLineB (lineOf inputC9 1).data = true := by decide

/-- C9 (amended): the structural scan of `detectOriginalJsonErrors` (its
doubled-comma, trailing-comma, missing-comma and bracket-balance checks) and
the legacy invalid-character scan skip empty and comment lines before any
check runs and so never report a defect on such a line; the legacy
missing-comma pre-scan, however, skips only empty lines. -/
theorem c9_scan_skips_comment_lines (text : String) (l : Nat) :
    (∀ r, detectScan (splitNl text) 0 0 = some r → r.line = some l →
      skipLineB (lineOf text l).data = false) ∧
    (∀ r, probCharScan (splitNl text) 0 0 = some r → r.line = some l →
      skipLineB (lineOf text l).data = false) := by
  constructor
  · intro r hr hl
    obtain ⟨k, hk1, hk2, _⟩ := detectScan_report (splitNl text) 0 0 r hr l hl
    rw [lineOf, show l - 1 = k by omega]
    exact hk2
  · intro r hr hl
    obtain ⟨k, hk1, hk2⟩ := probCharScan_skip (splitNl text) 0 0 r hr l hl
    rw [lineOf, show l - 1 = k by omega]
    exact hk2

/-- Witness for the amended C9: the duplicated-comma report on `inputC7`
names line 1, which is indeed not a skipped line. -/
theorem c9_scan_skips_witness : skipLineB (lineOf inputC7 1).data = false :=
  (c9_scan_skips_comment_lines inputC7 1).1
    ⟨some 8, some 1, some 9, some ",", "Unexpected comma - remove duplicate comma"⟩
    (by decide) (by decide)

/-- C10 counterexample: the claim clamps `pos` into `[0, text.length - 1]`,
but on empty text that interval is empty while `locateJsonError` still
returns the fully-populated `pos = 0, line = 1, col = 1`. -/
theorem c10_empty_text_position_zero :
    (locateJsonError "at position 5" "").pos = some 0 ∧
    (locateJsonError "at position 5" "").line = some 1 ∧
    (locateJsonError "at position 5" "").col = some 1 ∧
    ¬ ((0 : Int) ≤ (("" : String).length : Int) - 1) := by decide

/-- C10 (amended): `locateJsonError` returns either a location with `pos`,
`line` and `col` all null, or one with all three populated and `pos` clamped
into `[0, max(text.length - 1, 0)]` (the clamp's lower bound wins on empty
text); it never returns a partially populated location. -/
theorem c10_locate_all_or_nothing (msg text : String) :
    ((locateJsonError msg text).pos = none ∧ (locateJsonError msg text).line = none ∧
      (locateJsonError msg text).col = none) ∨
    (∃ p l c, (locateJsonError msg text).pos = some p ∧
      (locateJsonError msg text).line = some l ∧ (locateJsonError msg text).col = some c ∧
      (p : Int) ≤ max ((text.length : Int) - 1) 0) := by
  cases hp : msgPos msg with
  | none => left; simp [locateJsonError, hp]
  | some p =>
    cases hw : locateWalk (splitNl text) 0 0
        ((max 0 (min ((text.length : Int) - 1) (p : Int))).toNat) with
    | none => left; simp [locateJsonError, hp, hw]
    | some lc =>
      right
      obtain ⟨l, c⟩ := lc
      have he : locateJsonError msg text =
          ⟨some ((max 0 (min ((text.length : Int) - 1) (p : Int))).toNat),
            some l, some c, none⟩ := by
        simp [locateJsonError, hp, hw]
      have h0 : (0 : Int) ≤ max 0 (min ((text.length : Int) - 1) (p : Int)) :=
        le_max_left _ _
      refine ⟨(max 0 (min ((text.length : Int) - 1) (p : Int))).toNat, l, c,
        by rw [he], by rw [he], by rw [he], ?_⟩
      rw [Int.toNat_of_nonneg h0]
      exact max_le (le_max_right _ _)
        (le_trans (min_le_left _ _) (le_max_left _ _))

/-- Closed witness for the amended C10 at a concrete message and text. -/
theorem c10_locate_all_or_nothing_witness :
    ((locateJsonError "at position 3" "ab").pos = none ∧
      (locateJsonError "at position 3" "ab").line = none ∧
      (locateJsonError "at position 3" "ab").col = none) ∨
    (∃ p l c, (locateJsonError "at position 3" "ab").pos = some p ∧
      (locateJsonError "at position 3" "ab").line = some l ∧
      (locateJsonError "at position 3" "ab").col = some c ∧
      (p : Int) ≤ max ((("ab" : String).length : Int) - 1) 0) :=
  c10_locate_all_or_nothing "at position 3" "ab"

end JsonRepair
